import Mathlib

/-!
Verification of the Meri Bot Discord-bot repository.

This file gives a shallow embedding, in Lean 4, of the pure computational
cores of the bot's Python source, and proves the behavioural claims about
them.  Each embedded definition is translated directly from the named
Python function; Python strings are modelled as `List Char`, Python floats
as `ℚ` (the arithmetic performed by the embedded routines is exact at the
precision the specification discusses), and Python functions that perform
network or subprocess I/O are modelled by abstracting the external call as
an explicit oracle parameter while keeping the surrounding control flow.
-/

namespace MeriBot

/-! ## Per-user conversation memory  (src/Meri_Bot.py, `_remember`)

`MEMORY_TURNS = 5` and `_remember` appends `{"role": role, "content": content}`
to the per-user history, normalising unknown roles to `"user"`, then deletes
the oldest `excess = len(history) - MEMORY_TURNS * 2` entries when that is
positive. -/

def MEMORY_TURNS : Nat := 5

structure Msg where
  role : String
  content : String
deriving DecidableEq

/-- Role normalisation of `_remember`: roles outside
`["user", "assistant", "system"]` are stored as `"user"`. -/
def normRole (role : String) : String :=
  if role = "user" ∨ role = "assistant" ∨ role = "system" then role else "user"

/-- The message actually stored for a `(role, content)` call. -/
def mkMsg (p : String × String) : Msg :=
  ⟨normRole p.1, p.2⟩

/-- `_remember`, acting on one user's history list. -/
def remember (history : List Msg) (role content : String) : List Msg :=
  let history := history ++ [⟨normRole role, content⟩]
  let excess := history.length - MEMORY_TURNS * 2
  if excess > 0 then history.drop excess else history

/-- The history produced by a sequence of `_remember` calls starting from an
empty history (a fresh user). -/
def rememberAll (calls : List (String × String)) : List Msg :=
  calls.foldl (fun h p => remember h p.1 p.2) []

/-! ## Discord chunked delivery  (src/Meri_Bot.py, `chunk_text`, `_send_limited`) -/

/-- `chunk_text`: `[text[i:i+chunk_size] for i in range(0, len(text), chunk_size)]`.
`range(0, n, k)` has `(n + k - 1) / k` elements (natural division). -/
def chunk_text (text : List Char) (chunk_size : Nat := 1900) : List (List Char) :=
  (List.range' 0 ((text.length + chunk_size - 1) / chunk_size) chunk_size).map
    fun i => (text.drop i).take chunk_size

/-- `_send_limited`, modelled as the list of message payloads sent (each payload
is additionally wrapped in a Discord code fence when posted, which we omit).
When there are more than `max_posts` chunks, the overflow chunks are appended
to the last kept chunk, joined by newlines (`head[-1] += "\n" + "\n".join(tail)`).
(The Python code would raise an IndexError at `head[-1]` for `max_posts = 0`;
the bot only ever calls it with the default `max_posts = 5`.) -/
def send_limited (text : List Char) (max_posts : Nat := 5) : List (List Char) :=
  let chunks := chunk_text text
  if chunks = [] then []
  else if chunks.length > max_posts then
    let head := chunks.take max_posts
    let tail := chunks.drop max_posts
    head.dropLast ++ [head.getLastD [] ++ ('\n' :: List.intercalate ['\n'] tail)]
  else chunks

/-! ## Configuration validation  (src/config.py, `validate_config`)

The validated settings are modelled as a record; the integer-valued settings
are Python ints (`Int`), `DEFAULT_VOLUME` is a float modelled as `ℚ`.
`if not BOT_TOKEN` is the emptiness test on the token string. -/

structure Config where
  BOT_TOKEN : String
  LMSTUDIO_MAX_TOKENS : Int
  MODEL_TTL_SECONDS : Int
  MIN_VIDEO_FRAMES : Int
  DEFAULT_VOLUME : ℚ

/-- `validate_config`: collects one error message per violated constraint and
returns them; it raises nothing and aborts nothing. -/
def validate_config (c : Config) : List String :=
  (if c.BOT_TOKEN = "" then
    ["BOT_TOKEN is not set. Please set TOKEN in your .env file."] else []) ++
  (if c.LMSTUDIO_MAX_TOKENS < -1 ∨ c.LMSTUDIO_MAX_TOKENS = 0 then
    ["LMSTUDIO_MAX_TOKENS must be -1 (unlimited) or a positive number."] else []) ++
  (if c.MODEL_TTL_SECONDS < 0 then
    ["MODEL_TTL_SECONDS must be a non-negative number."] else []) ++
  (if c.MIN_VIDEO_FRAMES < 1 ∨ c.MIN_VIDEO_FRAMES > 20 then
    ["MIN_VIDEO_FRAMES should be between 1 and 20."] else []) ++
  (if c.DEFAULT_VOLUME < 0 ∨ c.DEFAULT_VOLUME > 1 then
    ["DEFAULT_VOLUME must be between 0 and 1."] else [])

/-! ## Voice connection retry loop  (src/voice_handler.py, `join_voice_channel`)

`attempt_voice_connection` either yields a live voice client or classifies the
failure; the classification decides the recovery strategy and the delay before
the next attempt.  The network interaction is abstracted as an oracle mapping
the attempt number to the classified outcome of that attempt. -/

inductive ConnResult where
  /-- a `discord.VoiceClient` was returned and validated -/
  | connected
  /-- the `"4006_error"` code (session-invalid condition) -/
  | e4006
  /-- the `"gateway_error"` code -/
  | gatewayError
  /-- the `"permission_error"` code -/
  | permissionError
  /-- the `"state_mismatch"` code -/
  | stateMismatch
  /-- `None` (unclassified connection failure) -/
  | failed
deriving DecidableEq

/-- Trace of one `join_voice_channel` run: how many connection attempts were
made, the retry delays slept by the common inter-attempt block at the bottom of
the loop body (the `attempt * 3` sleep for the 4006 branch, `attempt * 2`
otherwise; the gateway branch sleeps separately and the per-branch cleanup
sleeps are not retry delays), and whether the join succeeded. -/
structure JoinTrace where
  attemptsMade : Nat
  retryDelays : List Nat
  success : Bool
deriving DecidableEq

/-- Configured attempt cap in `join_voice_channel` (`max_attempts = 5`). -/
def max_attempts : Nat := 5

/-- The retry loop `for attempt in range(1, max_attempts + 1)` of
`join_voice_channel`, for a given outcome oracle.  Success returns at once;
a permission error returns `False` at once; every other outcome falls to the
common inter-attempt block and continues with the next attempt. -/
def joinLoop (oracle : Nat → ConnResult) : Nat → Nat → JoinTrace
  | _, 0 => ⟨0, [], false⟩
  | attempt, rem + 1 =>
    match oracle attempt with
    | .connected => ⟨1, [], true⟩
    | .permissionError => ⟨1, [], false⟩
    | r =>
      let delay : Option Nat :=
        if attempt < max_attempts then
          match r with
          | .e4006 => some (attempt * 3)
          | .gatewayError => none
          | _ => some (attempt * 2)
        else none
      let rest := joinLoop oracle (attempt + 1) rem
      ⟨rest.attemptsMade + 1, delay.toList ++ rest.retryDelays, rest.success⟩

/-- `join_voice_channel` after its pre-checks: runs the attempt loop starting
at attempt 1 with the configured cap. -/
def join_voice_channel (oracle : Nat → ConnResult) : JoinTrace :=
  joinLoop oracle 1 max_attempts

/-! ## Local-file frame sampling  (src/Meri_Bot.py, `_extract_video_frames_from_file`)

Durations and timestamps are Python floats, modelled as `ℚ` (all the
arithmetic appearing here — division by small integers, comparison against the
duration — is exact at the granularity the specification discusses). -/

/-- Timestamp selection of `_extract_video_frames_from_file` (step 2).
For `duration <= 5`: `interval = max(0.5, duration / max_frames)` and
timestamps `(i + 0.5) * interval` for `i in range(max_frames)`, stopping at the
first timestamp `>= duration` (the loop breaks there).  Otherwise:
`step = duration / (max_frames + 1)` and timestamps `i * step` for
`i in range(1, max_frames + 1)`.  Finally `timestamps = timestamps[:max_frames]`. -/
def frameTimestamps (duration : ℚ) (max_frames : Nat) : List ℚ :=
  let timestamps :=
    if duration ≤ 5 then
      ((List.range max_frames).map fun (i : Nat) =>
          ((i : ℚ) + 1/2) * max (1/2 : ℚ) (duration / max_frames)).takeWhile
        fun t => decide (t < duration)
    else
      (List.range' 1 max_frames).map fun (i : Nat) => (i : ℚ) * (duration / (max_frames + 1))
  timestamps.take max_frames

/-- Outcome of the ffprobe step (step 1) of `_extract_video_frames_from_file`,
abstracting the subprocess call. -/
inductive ProbeOutcome where
  /-- `result.returncode != 0` -/
  | exitNonzero
  /-- probe output parsed cleanly: whether a video stream exists, and the
  parsed `format.duration` value -/
  | parsed (hasVideo : Bool) (duration : ℚ)
  /-- an exception inside the probe `try` block (e.g. unparseable JSON or a
  bad duration field), caught by `except`, which sets `duration = 60.0` -/
  | parseException
deriving DecidableEq

/-- The pre-extraction phase of `_extract_video_frames_from_file`: `none`
models the early `return frames_base64` (the empty list) before any frame
extraction; `some (duration, timestamps)` means the function proceeds to the
ffmpeg extraction loop with that duration and those timestamps. -/
def framePlan (outcome : ProbeOutcome) (max_frames : Nat) : Option (ℚ × List ℚ) :=
  match outcome with
  | .exitNonzero => none
  | .parsed hasVideo d =>
    if !hasVideo then none
    else if d ≤ 0 then none
    else some (d, frameTimestamps d max_frames)
  | .parseException =>
    let d : ℚ := 60
    if d ≤ 0 then none
    else some (d, frameTimestamps d max_frames)

/-! ## Web-search query sanitisation  (src/Meri_Bot.py, `_ddg_search`)

Python's `str.strip()`, `\s` and `\w` also cover some non-ASCII characters;
the embedding models the ASCII fragment of those classes, which covers every
string the claims quantify over. -/

/-- ASCII whitespace, as matched by Python's `\s` and stripped by `str.strip()`. -/
def isWs (c : Char) : Bool :=
  c == ' ' || c == '\t' || c == '\n' || c == '\r' || c == '\x0b' || c == '\x0c'

/-- ASCII fragment of Python's `\w` (word characters). -/
def isWordChar (c : Char) : Bool :=
  c.isAlphanum || c == '_'

/-- The allow-list of `re.sub(r'[^\w\s\-\.\,\?\!\:]', ' ', query)`: characters
outside it are replaced by a space. -/
def isAllowedChar (c : Char) : Bool :=
  isWordChar c || isWs c || c == '-' || c == '.' || c == ',' ||
    c == '?' || c == '!' || c == ':'

/-- Python `str.strip()`: remove leading and trailing whitespace. -/
def pyStrip (s : List Char) : List Char :=
  ((s.dropWhile isWs).reverse.dropWhile isWs).reverse

/-- `re.sub(r'\s+', ' ', s)`: every maximal whitespace run becomes one space. -/
def collapseWs : List Char → List Char
  | [] => []
  | [c] => if isWs c then [' '] else [c]
  | a :: b :: t =>
    if isWs a && isWs b then collapseWs (b :: t)
    else (if isWs a then ' ' else a) :: collapseWs (b :: t)

/-- The query sanitisation performed by `_ddg_search` before searching: strip;
truncate past 500 characters appending a `"..."` marker; replace characters
outside the allow-list by spaces; collapse whitespace runs; strip. -/
def sanitizeQuery (q : List Char) : List Char :=
  let original_query := pyStrip q
  let q1 := if original_query.length > 500
    then original_query.take 500 ++ ['.', '.', '.']
    else original_query
  let q2 := q1.map fun c => if isAllowedChar c then c else ' '
  pyStrip (collapseWs q2)

/-- No two adjacent whitespace characters. -/
def noDoubleWs : List Char → Bool
  | [] => true
  | [_] => true
  | a :: b :: t => !(isWs a && isWs b) && noDoubleWs (b :: t)

/-- The first character, if any, is not whitespace. -/
def headNotWs (l : List Char) : Bool :=
  match l.head? with
  | some c => !isWs c
  | none => true

/-- The last character, if any, is not whitespace. -/
def lastNotWs (l : List Char) : Bool :=
  match l.getLast? with
  | some c => !isWs c
  | none => true

/-- An already-sanitised query in the sense of the specification: at most 500
characters, only allow-listed characters, the only whitespace is single `' '`
separators, and no leading or trailing whitespace. -/
def isSanitized (q : List Char) : Bool :=
  decide (q.length ≤ 500) &&
  q.all (fun c => isAllowedChar c && (!isWs c || c == ' ')) &&
  noDoubleWs q &&
  headNotWs q &&
  lastNotWs q

/-! ## Web-search fallback chain  (src/Meri_Bot.py, `_ddg_search`)

The network calls are abstracted as an environment of oracles: one for the
default `DDGS()` client, one for the alternate `DDGS(proxy=None, timeout=20)`
client configuration, and one for the legacy `ddg` function, together with
flags for whether each import succeeded.  Each oracle either completes with a
result list or raises. -/

structure SearchResult where
  title : String
  body : String
  url : String
deriving DecidableEq

/-- Outcome of one external search call. -/
inductive CallOutcome where
  /-- the call completed and yielded these records -/
  | ok (results : List SearchResult)
  /-- the call raised an exception -/
  | raises

structure SearchEnv where
  /-- `from duckduckgo_search import DDGS` succeeds -/
  ddgsAvailable : Bool
  /-- `DDGS()` with default settings, `ddgs.text(query, max_results=n)` -/
  ddgsDefault : List Char → Nat → CallOutcome
  /-- `DDGS(proxy=None, timeout=20)`, `ddgs.text(query, max_results=n, ...)` -/
  ddgsAlt : List Char → Nat → CallOutcome
  /-- the module-level legacy `ddg` import succeeded (`ddg is not None`) -/
  legacyAvailable : Bool
  /-- the legacy `ddg(query, max_results=n)` call -/
  legacyDdg : List Char → Nat → CallOutcome

/-- The collection loop `for r in search_results: append(r); if len >= max_results:
break`.  It appends before checking, so it keeps at least one record even when
`max_results = 0`. -/
def collectResults (rs : List SearchResult) (max_results : Nat) : List SearchResult :=
  rs.take (max max_results 1)

/-- Method 1 of `_ddg_search`: the `DDGS` class interface; on any exception
from the default configuration, retry with the alternate configuration; an
exception from that too (or an import failure) escapes to the enclosing
`except`, modelled as `none`. -/
def ddgsMethod (env : SearchEnv) (query : List Char) (max_results : Nat) :
    Option (List SearchResult) :=
  if env.ddgsAvailable then
    match env.ddgsDefault query max_results with
    | .ok rs => some (collectResults rs max_results)
    | .raises =>
      match env.ddgsAlt query max_results with
      | .ok rs => some (collectResults rs max_results)
      | .raises => none
  else none

/-- Python `str.split()` with no separator: split on whitespace runs,
discarding empty fields. -/
def pySplitWs (s : List Char) : List (List Char) :=
  match s with
  | [] => []
  | c :: cs =>
    if isWs c then pySplitWs cs
    else ((c :: cs).takeWhile fun x => !isWs x) :: pySplitWs (cs.dropWhile fun x => !isWs x)
termination_by s.length
decreasing_by
  · simp
  · have hle := (List.dropWhile_sublist (fun x => !isWs x) (l := cs)).length_le
    simp
    omega

/-- The simplified query of method 3: `' '.join(query.split()[:10])`. -/
def first10Words (q : List Char) : List Char :=
  List.intercalate [' '] ((pySplitWs q).take 10)

/-- `_ddg_search`: sanitise the query, then try method 1 (`DDGS` interface,
default then alternate configuration), method 2 (legacy `ddg` function), and —
only when the sanitised query is longer than 100 characters — method 3 (the
first-10-words simplified query through `DDGS`), returning the first non-empty
result list, and `[]` when everything fails.  Every exception of an external
call is caught, so the function always returns a list. -/
def ddg_search (env : SearchEnv) (query : List Char) (max_results : Nat := 5) :
    List SearchResult :=
  if pyStrip query = [] then []
  else
    let query := sanitizeQuery query
    if query = [] then []
    else
      let m1 : List SearchResult :=
        match ddgsMethod env query max_results with
        | some rs => rs
        | none => []
      if m1 ≠ [] then m1
      else
        let m2 : List SearchResult :=
          if env.legacyAvailable then
            match env.legacyDdg query max_results with
            | .ok rs => rs
            | .raises => []
          else []
        if m2 ≠ [] then m2
        else
          if query.length > 100 then
            if env.ddgsAvailable then
              match env.ddgsDefault (first10Words query) max_results with
              | .ok rs => collectResults rs max_results
              | .raises => []
            else []
          else []

/-! ## Response cleanup  (src/reason.py, `llama_chat` streaming response cleanup)

The cleanup applies literal-string regex substitutions; each is embedded as a
scanner over `List Char` with the same matching semantics (leftmost,
non-overlapping, continuing after each replacement). -/

/-- Split `s` at the first occurrence of `pat`: `some (before, after)` with
`s = before ++ pat ++ after` and `before` shortest; `none` when `pat` does not
occur in `s`. -/
def splitFirst (pat : List Char) : List Char → Option (List Char × List Char)
  | [] => if pat.isEmpty then some ([], []) else none
  | c :: cs =>
    if pat.isPrefixOf (c :: cs) then some ([], (c :: cs).drop pat.length)
    else
      match splitFirst pat cs with
      | some (pre, post) => some (c :: pre, post)
      | none => none

def thinkOpenTag : List Char := "<think>".data

def thinkCloseTag : List Char := "</think>".data

/-- `re.sub(r"<think>.*?</think>", "", s, flags=re.DOTALL)`: repeatedly remove
the region from each `<think>` to the nearest following `</think>`.  The fuel
(the string length on the initial call) bounds the recursion; each removal
strictly shortens the remaining text, so the initial fuel never runs out. -/
def subThinkClosed : Nat → List Char → List Char
  | 0, s => s
  | fuel + 1, s =>
    match splitFirst thinkOpenTag s with
    | none => s
    | some (pre, rest) =>
      match splitFirst thinkCloseTag rest with
      | none => s
      | some (_, rest2) => pre ++ subThinkClosed fuel rest2

/-- `re.sub(r"<think>.*", "", s, flags=re.DOTALL)`: drop everything from the
first remaining `<think>` onwards. -/
def subThinkOpen (s : List Char) : List Char :=
  match splitFirst thinkOpenTag s with
  | none => s
  | some (pre, _) => pre

/-- Python `str.replace(pat, "")`: remove every non-overlapping occurrence of
`pat`, scanning left to right. -/
def removeAll (pat : List Char) : Nat → List Char → List Char
  | 0, s => s
  | fuel + 1, s =>
    match splitFirst pat s with
    | none => s
    | some (pre, post) => pre ++ removeAll pat fuel post

/-- The chain-of-thought marker phrases, in the order the cleanup tries them. -/
def markers : List (List Char) :=
  ["FINAL ANSWER:".data, "Final Answer:".data, "### Answer".data, "Answer:".data]

/-- `s.split(marker)[-1]`: the text after the last non-overlapping occurrence
of `marker` (the whole of `s` when the marker does not occur). -/
def afterLast (pat : List Char) : Nat → List Char → List Char
  | 0, s => s
  | fuel + 1, s =>
    match splitFirst pat s with
    | none => s
    | some (_, post) => afterLast pat fuel post

/-- The marker loop: `for marker in [...]: if marker in accumulated:
accumulated = accumulated.split(marker)[-1].strip()`. -/
def applyMarkers (s : List Char) : List Char :=
  markers.foldl
    (fun acc m =>
      match splitFirst m acc with
      | none => acc
      | some _ => pyStrip (afterLast m acc.length acc))
    s

def lbrace : Char := Char.ofNat 123

def rbrace : Char := Char.ofNat 125

def boxedLit : List Char := '\\' :: "boxed".data

/-- `re.sub(r"\\boxed\s*{([^}]+)}", r"\1", s)`: each `\boxed` followed by
optional whitespace and a non-empty brace-delimited group is replaced by the
group's contents; a `\boxed` not followed by such a group stays and the scan
continues behind it (no later occurrence can overlap the literal). -/
def subBoxed : Nat → List Char → List Char
  | 0, s => s
  | fuel + 1, s =>
    match splitFirst boxedLit s with
    | none => s
    | some (pre, rest) =>
      match rest.dropWhile isWs with
      | [] => pre ++ boxedLit ++ subBoxed fuel rest
      | b :: r2 =>
        if b = lbrace then
          let content := r2.takeWhile fun c => c != rbrace
          let r3 := r2.drop content.length
          if content ≠ [] ∧ r3.head? = some rbrace then
            pre ++ content ++ subBoxed fuel (r3.drop 1)
          else pre ++ boxedLit ++ subBoxed fuel rest
        else pre ++ boxedLit ++ subBoxed fuel rest

/-- The response cleanup of the `reason.py` streaming chat path, in the order
the code applies it: closed think-block removal, unterminated think-opener
removal, stray think-tag removal, marker truncation (keeping only the text
after each applicable marker, stripped), `\boxed` group unwrapping, literal
`\boxed` remnant removal, and a final strip. -/
def cleanupResponse (s : List Char) : List Char :=
  let s1 := subThinkClosed s.length s
  let s2 := subThinkOpen s1
  let s3 := removeAll thinkOpenTag s2.length s2
  let s4 := removeAll thinkCloseTag s3.length s3
  let s5 := applyMarkers s4
  let s6 := subBoxed s5.length s5
  let s7 := removeAll boxedLit s6.length s6
  pyStrip s7

end MeriBot

namespace MeriBot

/-! ## Helper lemmas on memory -/

theorem remember_eq_drop (h : List Msg) (role content : String) :
    remember h role content =
      (h ++ [(⟨normRole role, content⟩ : Msg)]).drop ((h.length + 1) - MEMORY_TURNS * 2) := by
  simp only [remember]
  split
  · simp
  · rename_i hneg
    have hz : (h.length + 1) - MEMORY_TURNS * 2 = 0 := by
      simp at hneg
      omega
    simp [hz]

theorem foldl_remember (calls : List (String × String)) :
    ∀ h : List Msg, h.length ≤ MEMORY_TURNS * 2 →
      calls.foldl (fun h p => remember h p.1 p.2) h =
        (h ++ calls.map mkMsg).drop ((h.length + calls.length) - MEMORY_TURNS * 2) := by
  induction calls with
  | nil =>
    intro h hle
    simp only [List.foldl_nil, List.map_nil, List.append_nil, List.length_nil, Nat.add_zero]
    have hz : h.length - MEMORY_TURNS * 2 = 0 := by omega
    simp [hz]
  | cons p ps ih =>
    intro h hle
    have hstep : remember h p.1 p.2 =
        (h ++ [mkMsg p]).drop ((h.length + 1) - MEMORY_TURNS * 2) :=
      remember_eq_drop h p.1 p.2
    have hlen : (remember h p.1 p.2).length ≤ MEMORY_TURNS * 2 := by
      rw [hstep]
      simp only [List.length_drop, List.length_append, List.length_cons, List.length_nil]
      omega
    calc (p :: ps).foldl (fun h q => remember h q.1 q.2) h
        = ps.foldl (fun h q => remember h q.1 q.2) (remember h p.1 p.2) := rfl
      _ = ((remember h p.1 p.2) ++ ps.map mkMsg).drop
            (((remember h p.1 p.2).length + ps.length) - MEMORY_TURNS * 2) := ih _ hlen
      _ = (h ++ (p :: ps).map mkMsg).drop ((h.length + (p :: ps).length) - MEMORY_TURNS * 2) := by
          rw [hstep]
          have hk : (h.length + 1) - MEMORY_TURNS * 2 ≤ (h ++ [mkMsg p]).length := by
            simp
          rw [← List.drop_append_of_le_length hk, List.drop_drop]
          have hlist : h ++ [mkMsg p] ++ ps.map mkMsg = h ++ (p :: ps).map mkMsg := by
            simp
          rw [hlist]
          congr 1
          simp only [List.length_drop, List.length_append, List.length_cons,
            List.length_nil, List.length_map]
          omega

theorem rememberAll_eq (calls : List (String × String)) :
    rememberAll calls = (calls.map mkMsg).drop (calls.length - MEMORY_TURNS * 2) := by
  have := foldl_remember calls [] (by simp)
  simpa [rememberAll] using this

/-- C1: the per-user memory never exceeds `2 × MEMORY_TURNS = 10` stored turns,
the oldest turns are evicted first (after any call sequence from a fresh user the
stored history is exactly the trailing window of the messages appended so far, in
order), and in particular 12 alternating user/assistant `remember` calls leave
exactly the last 10 calls' turns in their original relative order. -/
theorem C1_memory_bound_and_fifo :
    (∀ calls : List (String × String), (rememberAll calls).length ≤ 2 * MEMORY_TURNS) ∧
    (∀ calls : List (String × String),
      rememberAll calls = (calls.map mkMsg).drop (calls.length - 2 * MEMORY_TURNS)) ∧
    rememberAll
        [("user", "m1"), ("assistant", "m2"), ("user", "m3"), ("assistant", "m4"),
         ("user", "m5"), ("assistant", "m6"), ("user", "m7"), ("assistant", "m8"),
         ("user", "m9"), ("assistant", "m10"), ("user", "m11"), ("assistant", "m12")] =
      [⟨"user", "m3"⟩, ⟨"assistant", "m4"⟩, ⟨"user", "m5"⟩, ⟨"assistant", "m6"⟩,
       ⟨"user", "m7"⟩, ⟨"assistant", "m8"⟩, ⟨"user", "m9"⟩, ⟨"assistant", "m10"⟩,
       ⟨"user", "m11"⟩, ⟨"assistant", "m12"⟩] := by
  refine ⟨fun calls => ?_, fun calls => ?_, by decide⟩
  · rw [rememberAll_eq]
    simp only [List.length_drop, List.length_map]
    omega
  · rw [rememberAll_eq]
    have : MEMORY_TURNS * 2 = 2 * MEMORY_TURNS := by omega
    rw [this]

/-! ## Helper lemmas on chunking -/

theorem chunk_text_length (text : List Char) (k : Nat) :
    (chunk_text text k).length = (text.length + k - 1) / k := by
  simp [chunk_text]

theorem chunk_text_nil (k : Nat) : chunk_text [] k = [] := by
  unfold chunk_text
  have hz : (([] : List Char).length + k - 1) / k = 0 := by
    rcases Nat.eq_zero_or_pos k with h0 | hp
    · simp [h0]
    · simp only [List.length_nil, Nat.zero_add]
      exact Nat.div_eq_of_lt (by omega)
  rw [hz]
  simp

theorem map_range'_shift {α : Type} (f : Nat → α) :
    ∀ (n s step : Nat), (List.range' (s + step) n step).map f
      = (List.range' s n step).map fun i => f (i + step) := by
  intro n
  induction n with
  | zero => intro s step; simp
  | succ n ih =>
    intro s step
    rw [List.range'_succ, List.range'_succ]
    simp only [List.map_cons]
    rw [ih (s + step) step]

theorem chunk_text_cons (l : List Char) (k : Nat) (hk : 0 < k) (hl : l ≠ []) :
    chunk_text l k = l.take k :: chunk_text (l.drop k) k := by
  have hlen : 0 < l.length := List.length_pos.mpr hl
  have hcount : (l.length + k - 1) / k = (l.length - 1) / k + 1 := by
    have h1 : l.length + k - 1 = (l.length - 1) + k := by omega
    rw [h1, Nat.add_div_right _ hk]
  have hcount2 : ((l.drop k).length + k - 1) / k = (l.length - 1) / k := by
    simp only [List.length_drop]
    rcases le_or_lt k l.length with hle | hlt
    · congr 1
      omega
    · have e1 : l.length - k = 0 := by omega
      rw [e1, Nat.zero_add, Nat.div_eq_of_lt (by omega), Nat.div_eq_of_lt (by omega)]
  unfold chunk_text
  rw [hcount2, hcount, List.range'_succ, List.map_cons, List.drop_zero]
  have hshift := map_range'_shift (fun i => (l.drop i).take k) ((l.length - 1) / k) 0 k
  rw [hshift]
  refine congrArg _ (List.map_congr_left fun i _ => ?_)
  rw [List.drop_drop, Nat.add_comm k i]

theorem chunk_text_join (k : Nat) (hk : 0 < k) :
    ∀ (n : Nat) (l : List Char), l.length ≤ n → (chunk_text l k).flatten = l := by
  intro n
  induction n with
  | zero =>
    intro l h
    have hnil : l = [] := by
      cases l with
      | nil => rfl
      | cons a t => simp at h
    subst hnil
    simp [chunk_text_nil]
  | succ n ih =>
    intro l h
    by_cases hl : l = []
    · subst hl
      simp [chunk_text_nil]
    · rw [chunk_text_cons l k hk hl]
      have hd : (l.drop k).length ≤ n := by
        simp only [List.length_drop]
        have : 0 < l.length := List.length_pos.mpr hl
        omega
      simp only [List.flatten_cons]
      rw [ih _ hd, List.take_append_drop]

theorem chunk_text_chunk_le (l : List Char) (k : Nat) :
    ∀ c ∈ chunk_text l k, c.length ≤ k := by
  intro c hc
  simp only [chunk_text, List.mem_map] at hc
  obtain ⟨i, _, rfl⟩ := hc
  simp only [List.length_take]
  omega

theorem chunk_text_full (k : Nat) (hk : 0 < k) :
    ∀ (n : Nat) (l : List Char) (i : Nat), l.length ≤ n →
      i + 1 < (chunk_text l k).length → ((chunk_text l k).getD i []).length = k := by
  intro n
  induction n with
  | zero =>
    intro l i h hi
    have hnil : l = [] := by
      cases l with
      | nil => rfl
      | cons a t => simp at h
    subst hnil
    rw [chunk_text_nil] at hi
    simp at hi
  | succ n ih =>
    intro l i h hi
    by_cases hl : l = []
    · subst hl
      rw [chunk_text_nil] at hi
      simp at hi
    · rw [chunk_text_cons l k hk hl] at hi ⊢
      cases i with
      | zero =>
        have hne : chunk_text (l.drop k) k ≠ [] := by
          intro he
          rw [he] at hi
          simp at hi
        have hdne : l.drop k ≠ [] := by
          intro he
          rw [he, chunk_text_nil] at hne
          exact hne rfl
        have hkl : k < l.length := by
          have hp := List.length_pos.mpr hdne
          simp only [List.length_drop] at hp
          omega
        simp only [List.getD_cons_zero, List.length_take]
        omega
      | succ j =>
        simp only [List.getD_cons_succ]
        simp only [List.length_cons] at hi
        refine ih (l.drop k) j ?_ (by omega)
        simp only [List.length_drop]
        have : 0 < l.length := List.length_pos.mpr hl
        omega

theorem exists_len_six {α : Type} :
    ∀ l : List α, l.length = 6 → ∃ a b c d e f, l = [a, b, c, d, e, f]
  | a :: b :: c :: d :: e :: f :: rest, h => by
    have hr : rest = [] := by
      simp only [List.length_cons] at h
      exact List.length_eq_zero.mp (by omega)
    exact ⟨a, b, c, d, e, f, by rw [hr]⟩
  | [], h => by simp at h
  | [a], h => by simp at h
  | [a, b], h => by simp at h
  | [a, b, c], h => by simp at h
  | [a, b, c, d], h => by simp at h
  | [a, b, c, d, e], h => by simp at h

/-- C10: `chunk_text` with the 1900-character chunk size partitions its input:
the chunks concatenate back to the input, every chunk is at most 1900 characters,
every chunk other than the last is exactly 1900 characters, the empty string
yields no chunks, and `_send_limited` therefore sends no message for empty text. -/
theorem C10_chunking_partition :
    (∀ text : List Char, (chunk_text text).flatten = text) ∧
    (∀ text : List Char, ∀ c ∈ chunk_text text, c.length ≤ 1900) ∧
    (∀ (text : List Char) (i : Nat), i + 1 < (chunk_text text).length →
      ((chunk_text text).getD i []).length = 1900) ∧
    chunk_text [] = [] ∧
    send_limited [] = [] := by
  refine ⟨fun text => chunk_text_join 1900 (by omega) text.length text le_rfl,
          fun text => chunk_text_chunk_le text 1900,
          fun text i hi => chunk_text_full 1900 (by omega) text.length text i le_rfl hi,
          chunk_text_nil 1900, ?_⟩
  simp [send_limited, chunk_text_nil]

/-- Witness for C10 at a concrete 1901-character text (two chunks, the first full). -/
theorem C10_chunking_partition_witness :
    (chunk_text (List.replicate 1901 'a')).flatten = List.replicate 1901 'a' ∧
    0 + 1 < (chunk_text (List.replicate 1901 'a')).length ∧
    ((chunk_text (List.replicate 1901 'a')).getD 0 []).length = 1900 := by
  have hlen : (chunk_text (List.replicate 1901 'a')).length = 2 := by
    rw [chunk_text_length]
    norm_num
  exact ⟨C10_chunking_partition.1 _, by rw [hlen]; omega,
    C10_chunking_partition.2.2.1 _ 0 (by rw [hlen]; omega)⟩

/-- C2 counterexample: a 5000-character response yields 3 chunks at 1900
characters, not 5 — it is well under the 5-message cap, so no overflow merging
occurs and the claimed "exactly 5 chunks" is false at this input. -/
theorem C2_counterexample_5000_chars :
    send_limited (List.replicate 5000 'a') = chunk_text (List.replicate 5000 'a') ∧
    (send_limited (List.replicate 5000 'a')).length = 3 ∧
    ¬ (send_limited (List.replicate 5000 'a')).length = 5 := by
  have hchunks : (chunk_text (List.replicate 5000 'a')).length = 3 := by
    rw [chunk_text_length]
    norm_num
  have hne : chunk_text (List.replicate 5000 'a') ≠ [] := by
    intro h
    rw [h] at hchunks
    simp at hchunks
  have heq : send_limited (List.replicate 5000 'a') = chunk_text (List.replicate 5000 'a') := by
    simp only [send_limited]
    rw [if_neg hne, if_neg (by rw [hchunks]; omega)]
  refine ⟨heq, ?_, ?_⟩ <;> rw [heq, hchunks]
  omega

/-- C2 (amended): delivery splits the final text into chunks of at most 1900
characters, caps delivery at 5 messages, and appends overflow chunks to the last
allowed chunk joined by newlines; a 10000-character response (6 chunks in an
unbounded split) produces exactly 5 messages, the 5th being the concatenation of
unbounded chunks 5 and 6 separated by a newline. -/
theorem C2_amended_overflow_merge (text : List Char) (h : text.length = 10000) :
    (chunk_text text).length = 6 ∧
    send_limited text =
      (chunk_text text).take 4 ++
        [(chunk_text text).getD 4 [] ++ ('\n' :: (chunk_text text).getD 5 [])] ∧
    (send_limited text).length = 5 := by
  have hlen : (chunk_text text).length = 6 := by
    rw [chunk_text_length, h]
  obtain ⟨a, b, c, d, e, f, heq⟩ := exists_len_six _ hlen
  have hne : chunk_text text ≠ [] := by
    rw [heq]
    simp
  refine ⟨hlen, ?_, ?_⟩ <;>
  · simp only [send_limited]
    rw [if_neg hne, if_pos (by rw [hlen]; omega), heq]
    simp [List.intercalate]

/-- Witness for the amended C2 at the concrete 10000-character response. -/
theorem C2_amended_overflow_merge_witness :
    (List.replicate 10000 'a').length = 10000 ∧
    (send_limited (List.replicate 10000 'a')).length = 5 := by
  refine ⟨List.length_replicate 10000 'a',
    (C2_amended_overflow_merge (List.replicate 10000 'a') (List.length_replicate 10000 'a')).2.2⟩

/-! ## Configuration validation -/

/-- C6: `validate_config` is a total function (it never raises); its result
contains one error message per violated constraint, so it is non-empty exactly
when the token is empty, the max-token setting is below `-1` or equal to `0`,
the model TTL is negative, the frame count is outside `[1, 20]`, or the volume
is outside `[0, 1]`; and the boundary values `-1` (max tokens), `0` (TTL),
`1` and `20` (frames), `0` and `1` (volume) produce no error. -/
theorem C6_validate_config :
    (∀ c : Config,
      (validate_config c ≠ [] ↔
        (c.BOT_TOKEN = "" ∨ c.LMSTUDIO_MAX_TOKENS < -1 ∨ c.LMSTUDIO_MAX_TOKENS = 0 ∨
         c.MODEL_TTL_SECONDS < 0 ∨ c.MIN_VIDEO_FRAMES < 1 ∨ c.MIN_VIDEO_FRAMES > 20 ∨
         c.DEFAULT_VOLUME < 0 ∨ c.DEFAULT_VOLUME > 1)) ∧
      (validate_config c).length =
        ((if c.BOT_TOKEN = "" then 1 else 0) +
         (if c.LMSTUDIO_MAX_TOKENS < -1 ∨ c.LMSTUDIO_MAX_TOKENS = 0 then 1 else 0) +
         (if c.MODEL_TTL_SECONDS < 0 then 1 else 0) +
         (if c.MIN_VIDEO_FRAMES < 1 ∨ c.MIN_VIDEO_FRAMES > 20 then 1 else 0) +
         (if c.DEFAULT_VOLUME < 0 ∨ c.DEFAULT_VOLUME > 1 then 1 else 0))) ∧
    validate_config ⟨"token", -1, 0, 1, 0⟩ = [] ∧
    validate_config ⟨"token", -1, 0, 20, 1⟩ = [] := by
  refine ⟨fun c => ⟨?_, ?_⟩, ?_, ?_⟩
  · unfold validate_config
    split_ifs <;> simp_all <;> tauto
  · unfold validate_config
    split_ifs <;> simp_all
  · unfold validate_config
    norm_num
    decide
  · unfold validate_config
    norm_num
    decide

/-! ## Voice connection retry -/

/-- C8: when every attempt is classified as the session-invalid (4006)
condition, `join_voice_channel` makes exactly 5 attempts — the configured
`max_attempts` cap — before final failure, and the inter-attempt retry delays
on that branch are `attempt * 3` seconds, i.e. 3, 6, 9, 12, which is a
non-decreasing sequence. -/
theorem C8_voice_4006_retries :
    join_voice_channel (fun _ => .e4006) =
      ⟨max_attempts, [1 * 3, 2 * 3, 3 * 3, 4 * 3], false⟩ ∧
    List.Chain' (· ≤ ·) (join_voice_channel (fun _ => .e4006)).retryDelays := by
  constructor
  · decide
  · have h : (join_voice_channel (fun _ => .e4006)).retryDelays = [3, 6, 9, 12] := by decide
    rw [h]
    simp [List.chain'_cons]

/-! ## Frame-sampling timestamps -/

theorem takeWhile_eq_filter_of_pairwise {α : Type} (p : α → Bool) :
    ∀ l : List α, l.Pairwise (fun a b => p b = true → p a = true) →
      l.takeWhile p = l.filter p := by
  intro l
  induction l with
  | nil => intro _; rfl
  | cons a t ih =>
    intro hp
    rw [List.pairwise_cons] at hp
    obtain ⟨ha, ht⟩ := hp
    by_cases hpa : p a = true
    · rw [List.takeWhile_cons_of_pos hpa, List.filter_cons_of_pos hpa, ih ht]
    · rw [List.takeWhile_cons_of_neg (by simp [hpa]), List.filter_cons_of_neg (by simp [hpa])]
      have hnil : t.filter p = [] := by
        rw [List.filter_eq_nil_iff]
        intro b hb hpb
        exact hpa (ha b hb hpb)
      rw [hnil]

theorem frameTimestamps_short (d : ℚ) (N : Nat) (hd : d ≤ 5) :
    frameTimestamps d N =
      ((List.range N).map fun (i : Nat) => ((i : ℚ) + 1/2) * max (1/2 : ℚ) (d / N)).filter
        fun t => decide (t < d) := by
  unfold frameTimestamps
  rw [if_pos hd]
  have hpair : ((List.range N).map fun (i : Nat) => ((i : ℚ) + 1/2) * max (1/2 : ℚ) (d / N)).Pairwise
      (fun a b => (decide (b < d)) = true → (decide (a < d)) = true) := by
    rw [List.pairwise_map]
    refine List.Pairwise.imp ?_ (List.pairwise_lt_range N)
    intro i j hij hj
    rw [decide_eq_true_eq] at hj ⊢
    have hnn : (0 : ℚ) ≤ max (1/2 : ℚ) (d / N) := le_trans (by norm_num) (le_max_left _ _)
    have hij' : ((i : ℚ) + 1/2) ≤ ((j : ℚ) + 1/2) := by
      have hc : (i : ℚ) ≤ (j : ℚ) := Nat.cast_le.mpr (le_of_lt hij)
      linarith
    exact lt_of_le_of_lt (mul_le_mul_of_nonneg_right hij' hnn) hj
  rw [takeWhile_eq_filter_of_pairwise _ _ hpair]
  apply List.take_of_length_le
  calc (((List.range N).map fun (i : Nat) => ((i : ℚ) + 1/2) * max (1/2 : ℚ) (d / N)).filter
          fun t => decide (t < d)).length
      ≤ ((List.range N).map fun (i : Nat) => ((i : ℚ) + 1/2) * max (1/2 : ℚ) (d / N)).length :=
        List.length_filter_le _ _
    _ ≤ N := by simp

theorem frameTimestamps_long (d : ℚ) (N : Nat) (hd : 5 < d) :
    frameTimestamps d N = (List.range' 1 N).map fun (i : Nat) => (i : ℚ) * (d / (N + 1)) := by
  unfold frameTimestamps
  rw [if_neg (by exact not_le.mpr hd)]
  apply List.take_of_length_le
  simp

/-- C3: the local-file frame sampler computes, for durations at most 5 seconds,
`interval = max(0.5, duration / max_frames)` and keeps the timestamps
`(i + 0.5) * interval` (for `i = 0 .. max_frames - 1`) that are strictly below
the duration; for longer durations it takes `i * (duration / (max_frames + 1))`
for `i = 1 .. max_frames`.  In particular duration 3 with `max_frames = 5`
yields `[0.3, 0.9, 1.5, 2.1, 2.7]` and duration 100 with `max_frames = 5`
yields `[100/6, 200/6, 300/6, 400/6, 500/6]`. -/
theorem C3_frame_timestamps :
    frameTimestamps 3 5 = [3/10, 9/10, 3/2, 21/10, 27/10] ∧
    frameTimestamps 100 5 = [100/6, 200/6, 300/6, 400/6, 500/6] ∧
    (∀ (d : ℚ) (N : Nat), d ≤ 5 →
      frameTimestamps d N =
        ((List.range N).map fun (i : Nat) => ((i : ℚ) + 1/2) * max (1/2 : ℚ) (d / N)).filter
          fun t => decide (t < d)) ∧
    (∀ (d : ℚ) (N : Nat), 5 < d →
      frameTimestamps d N = (List.range' 1 N).map fun (i : Nat) => (i : ℚ) * (d / (N + 1))) := by
  refine ⟨?_, ?_, fun d N hd => frameTimestamps_short d N hd,
          fun d N hd => frameTimestamps_long d N hd⟩
  · rw [frameTimestamps_short 3 5 (by norm_num)]
    have hmax : max (1/2 : ℚ) (3 / ((5 : Nat) : ℚ)) = 3/5 := by
      rw [max_eq_right] <;> norm_num
    norm_num [List.range_succ, hmax, List.filter]
  · rw [frameTimestamps_long 100 5 (by norm_num)]
    norm_num [List.range']

/-- Witness for C3 at duration 2 (short branch) and duration 6 (long branch). -/
theorem C3_frame_timestamps_witness :
    frameTimestamps 2 3 =
      ((List.range 3).map fun (i : Nat) => ((i : ℚ) + 1/2) * max (1/2 : ℚ) (2 / 3)).filter
        (fun t => decide (t < 2)) ∧
    frameTimestamps 6 2 = (List.range' 1 2).map fun (i : Nat) => (i : ℚ) * (6 / (2 + 1)) := by
  exact ⟨C3_frame_timestamps.2.2.1 2 3 (by norm_num),
         C3_frame_timestamps.2.2.2 6 2 (by norm_num)⟩

/-- C9: if the ffprobe step raises inside its `try` block (e.g. unparseable
probe output), the sampler does not take the early empty return: it proceeds
to extraction assuming a duration of exactly 60.0 seconds, with the timestamps
computed from that assumed duration (for `max_frames = 5`: 10, 20, 30, 40, 50).
The early empty return happens exactly for a nonzero probe exit status, a
missing video stream, or a parsed duration at most 0. -/
theorem C9_probe_failure_fallback :
    (∀ N : Nat, framePlan .parseException N = some (60, frameTimestamps 60 N)) ∧
    framePlan .parseException 5 = some (60, [10, 20, 30, 40, 50]) ∧
    (∀ N : Nat, framePlan .exitNonzero N = none) ∧
    (∀ (N : Nat) (d : ℚ), framePlan (.parsed false d) N = none) ∧
    (∀ (N : Nat) (d : ℚ), (framePlan (.parsed true d) N = none ↔ d ≤ 0)) := by
  refine ⟨fun N => ?_, ?_, fun N => rfl, fun N d => rfl, fun N d => ?_⟩
  · simp [framePlan]
  · have h60 : frameTimestamps 60 5 = [10, 20, 30, 40, 50] := by
      rw [frameTimestamps_long 60 5 (by norm_num)]
      norm_num [List.range']
    simp [framePlan, h60]
  · simp only [framePlan, Bool.not_true]
    constructor
    · intro h
      by_contra hd
      rw [if_neg (by simp), if_neg hd] at h
      exact Option.some_ne_none _ h
    · intro hd
      rw [if_neg (by simp), if_pos hd]

/-! ## Query-sanitiser idempotence -/

theorem dropWhile_eq_self (p : Char → Bool) :
    ∀ l : List Char, (∀ c, l.head? = some c → p c = false) → l.dropWhile p = l
  | [], _ => rfl
  | a :: t, h => by
    rw [List.dropWhile_cons_of_neg]
    simp [h a rfl]

theorem headNotWs_iff (l : List Char) :
    headNotWs l = true ↔ ∀ c, l.head? = some c → isWs c = false := by
  unfold headNotWs
  cases h : l.head? <;> simp

theorem lastNotWs_iff (l : List Char) :
    lastNotWs l = true ↔ ∀ c, l.getLast? = some c → isWs c = false := by
  unfold lastNotWs
  cases h : l.getLast? <;> simp

theorem pyStrip_eq_self (l : List Char)
    (h1 : ∀ c, l.head? = some c → isWs c = false)
    (h2 : ∀ c, l.getLast? = some c → isWs c = false) :
    pyStrip l = l := by
  unfold pyStrip
  rw [dropWhile_eq_self isWs l h1]
  rw [dropWhile_eq_self isWs l.reverse
    (by intro c hc; exact h2 c (by rwa [List.head?_reverse] at hc))]
  exact List.reverse_reverse l

theorem map_allowed_id (l : List Char) (h : ∀ c ∈ l, isAllowedChar c = true) :
    (l.map fun c => if isAllowedChar c then c else ' ') = l := by
  induction l with
  | nil => rfl
  | cons a t ih =>
    simp only [List.map_cons]
    rw [if_pos (h a (List.mem_cons_self a t)), ih fun c hc => h c (List.mem_cons_of_mem a hc)]

theorem collapseWs_eq_self :
    ∀ l : List Char, noDoubleWs l = true → (∀ c ∈ l, isWs c = true → c = ' ') →
      collapseWs l = l
  | [] => fun _ _ => rfl
  | [c] => fun _ hws => by
    show (if isWs c then [' '] else [c]) = [c]
    by_cases h : isWs c = true
    · rw [if_pos h, hws c (List.mem_singleton_self c) h]
    · rw [if_neg (by simp [h])]
  | a :: b :: t => fun hnd hws => by
    show (if isWs a && isWs b then collapseWs (b :: t)
          else (if isWs a then ' ' else a) :: collapseWs (b :: t)) = a :: b :: t
    have hnd2 : noDoubleWs (b :: t) = true := by
      have : noDoubleWs (a :: b :: t) = (!(isWs a && isWs b) && noDoubleWs (b :: t)) := rfl
      rw [this, Bool.and_eq_true] at hnd
      exact hnd.2
    have hcond : (isWs a && isWs b) = false := by
      have : noDoubleWs (a :: b :: t) = (!(isWs a && isWs b) && noDoubleWs (b :: t)) := rfl
      rw [this, Bool.and_eq_true, Bool.not_eq_true'] at hnd
      exact hnd.1
    have hrec : collapseWs (b :: t) = b :: t :=
      collapseWs_eq_self (b :: t) hnd2 fun c hc => hws c (List.mem_cons_of_mem a hc)
    rw [if_neg (by simp [hcond]), hrec]
    by_cases ha : isWs a = true
    · rw [if_pos ha, hws a (List.mem_cons_self a _) ha]
    · rw [if_neg (by simp [ha])]

/-- C5: the query sanitiser of `_ddg_search` is idempotent on its own image:
for every query that is already sanitised (at most 500 characters, only
allow-listed characters, whitespace collapsed to single interior spaces),
applying the sanitisation again returns the identical string. -/
theorem C5_sanitizer_idempotent (q : List Char) (h : isSanitized q = true) :
    sanitizeQuery q = q := by
  unfold isSanitized at h
  simp only [Bool.and_eq_true, decide_eq_true_eq, List.all_eq_true] at h
  obtain ⟨⟨⟨⟨hlen, hall⟩, hnd⟩, hhead⟩, hlast⟩ := h
  have hallowed : ∀ c ∈ q, isAllowedChar c = true := by
    intro c hc
    exact (hall c hc).1
  have hwsSpace : ∀ c ∈ q, isWs c = true → c = ' ' := by
    intro c hc hws
    have hx := (hall c hc).2
    rw [Bool.or_eq_true, Bool.not_eq_true'] at hx
    rcases hx with h1 | h1
    · rw [hws] at h1
      cases h1
    · exact beq_iff_eq.mp h1
  have hstrip : pyStrip q = q :=
    pyStrip_eq_self q ((headNotWs_iff q).mp hhead) ((lastNotWs_iff q).mp hlast)
  unfold sanitizeQuery
  simp only
  rw [hstrip, if_neg (by omega), map_allowed_id q hallowed,
    collapseWs_eq_self q hnd hwsSpace, hstrip]

/-- Witness for C5 at the concrete sanitised query "hello world". -/
theorem C5_sanitizer_idempotent_witness :
    isSanitized ("hello world".data) = true ∧
    sanitizeQuery ("hello world".data) = "hello world".data :=
  ⟨by decide, C5_sanitizer_idempotent _ (by decide)⟩

/-! ## Web-search fallback chain -/

theorem ddgsMethod_none (env : SearchEnv) (q : List Char) (n : Nat)
    (hdef : env.ddgsDefault q n = .raises) (halt : env.ddgsAlt q n = .raises) :
    ddgsMethod env q n = none := by
  unfold ddgsMethod
  rw [hdef, halt]
  split <;> rfl

/-- C7: `_ddg_search` never raises to its caller and returns `[]` on total
failure; it rejects empty or whitespace-only queries with `[]`; it returns the
primary (`DDGS` default) results when that call yields any; it falls back to
the alternate `DDGS` configuration when the default raises, then to the legacy
`ddg` interface; and it attempts the simplified first-10-words query only when
the sanitised query exceeds 100 characters, before finally returning `[]`. -/
theorem C7_search_fallback_chain :
    -- (a) empty / whitespace-only query is rejected with []
    (∀ (env : SearchEnv) (q : List Char) (n : Nat), pyStrip q = [] →
      ddg_search env q n = []) ∧
    -- (b) total failure: every external call raises, the helper returns []
    (∀ (env : SearchEnv) (q : List Char) (n : Nat),
      (∀ q' k, env.ddgsDefault q' k = .raises) →
      (∀ q' k, env.ddgsAlt q' k = .raises) →
      (∀ q' k, env.legacyDdg q' k = .raises) →
      ddg_search env q n = []) ∧
    -- (c) the primary client interface is used first
    (∀ (env : SearchEnv) (q : List Char) (n : Nat) (rs : List SearchResult),
      pyStrip q ≠ [] → sanitizeQuery q ≠ [] →
      env.ddgsAvailable = true →
      env.ddgsDefault (sanitizeQuery q) n = .ok rs →
      collectResults rs n ≠ [] →
      ddg_search env q n = collectResults rs n) ∧
    -- (d) the alternate client configuration is used when the default raises
    (∀ (env : SearchEnv) (q : List Char) (n : Nat) (rs : List SearchResult),
      pyStrip q ≠ [] → sanitizeQuery q ≠ [] →
      env.ddgsAvailable = true →
      env.ddgsDefault (sanitizeQuery q) n = .raises →
      env.ddgsAlt (sanitizeQuery q) n = .ok rs →
      collectResults rs n ≠ [] →
      ddg_search env q n = collectResults rs n) ∧
    -- (e) the legacy single-function interface is the next fallback
    (∀ (env : SearchEnv) (q : List Char) (n : Nat) (rs : List SearchResult),
      pyStrip q ≠ [] → sanitizeQuery q ≠ [] →
      env.ddgsDefault (sanitizeQuery q) n = .raises →
      env.ddgsAlt (sanitizeQuery q) n = .raises →
      env.legacyAvailable = true →
      env.legacyDdg (sanitizeQuery q) n = .ok rs →
      rs ≠ [] →
      ddg_search env q n = rs) ∧
    -- (f) the simplified query is NOT attempted when the sanitised query has
    -- at most 100 characters: the result is [] whatever the simplified call
    -- would have returned
    (∀ (env : SearchEnv) (q : List Char) (n : Nat),
      (sanitizeQuery q).length ≤ 100 →
      env.ddgsDefault (sanitizeQuery q) n = .raises →
      env.ddgsAlt (sanitizeQuery q) n = .raises →
      env.legacyDdg (sanitizeQuery q) n = .raises →
      ddg_search env q n = []) ∧
    -- (g) the simplified first-10-words query is attempted for long queries
    (∀ (env : SearchEnv) (q : List Char) (n : Nat) (rs : List SearchResult),
      pyStrip q ≠ [] → 100 < (sanitizeQuery q).length →
      env.ddgsAvailable = true →
      env.ddgsDefault (sanitizeQuery q) n = .raises →
      env.ddgsAlt (sanitizeQuery q) n = .raises →
      env.legacyDdg (sanitizeQuery q) n = .raises →
      env.ddgsDefault (first10Words (sanitizeQuery q)) n = .ok rs →
      ddg_search env q n = collectResults rs n) := by
  refine ⟨?_, ?_, ?_, ?_, ?_, ?_, ?_⟩
  · intro env q n h
    unfold ddg_search
    rw [if_pos h]
  · intro env q n hdef halt hleg
    unfold ddg_search
    by_cases h0 : pyStrip q = []
    · rw [if_pos h0]
    · rw [if_neg h0]
      simp only
      by_cases h1 : sanitizeQuery q = []
      · rw [if_pos h1]
      · rw [if_neg h1, ddgsMethod_none env _ n (hdef _ n) (halt _ n)]
        simp only [ne_eq, not_true_eq_false, if_false]
        cases hLA : env.legacyAvailable <;>
          simp only [hleg, hdef, if_true, if_false] <;>
          split_ifs <;>
          simp [hdef]
  · intro env q n rs h0 h1 hav hok hne
    unfold ddg_search
    rw [if_neg h0]
    simp only
    rw [if_neg h1]
    unfold ddgsMethod
    rw [hav, hok]
    simp only [if_true]
    rw [if_pos hne]
  · intro env q n rs h0 h1 hav hdef hok hne
    unfold ddg_search
    rw [if_neg h0]
    simp only
    rw [if_neg h1]
    unfold ddgsMethod
    rw [hav, hdef, hok]
    simp only [if_true]
    rw [if_pos hne]
  · intro env q n rs h0 h1 hdef halt hLA hok hne
    unfold ddg_search
    rw [if_neg h0]
    simp only
    rw [if_neg h1, ddgsMethod_none env _ n hdef halt]
    simp only [ne_eq, not_true_eq_false, if_false]
    rw [hLA]
    simp only [if_true]
    rw [hok, if_pos hne]
  · intro env q n hlen hdef halt hleg
    unfold ddg_search
    by_cases h0 : pyStrip q = []
    · rw [if_pos h0]
    · rw [if_neg h0]
      simp only
      by_cases h1 : sanitizeQuery q = []
      · rw [if_pos h1]
      · rw [if_neg h1, ddgsMethod_none env _ n hdef halt]
        simp only [ne_eq, not_true_eq_false, if_false]
        cases hLA : env.legacyAvailable <;>
          simp [hleg, if_neg (by omega : ¬ (sanitizeQuery q).length > 100)]
  · intro env q n rs h0 hlen hav hdef halt hleg hok
    unfold ddg_search
    rw [if_neg h0]
    simp only
    have h1 : sanitizeQuery q ≠ [] := by
      intro he
      rw [he] at hlen
      simp at hlen
    rw [if_neg h1, ddgsMethod_none env _ n hdef halt]
    simp only [ne_eq, not_true_eq_false, if_false]
    cases hLA : env.legacyAvailable <;>
      simp only [hleg, if_true, if_false] <;>
      rw [if_pos (by omega : (sanitizeQuery q).length > 100), hav] <;>
      simp only [if_true] <;>
      rw [hok] <;>
      simp

/-- Witness for C7: a concrete environment in which every external call raises
returns the empty result list for a concrete query. -/
theorem C7_search_fallback_chain_witness :
    ddg_search
        ⟨true, fun _ _ => .raises, fun _ _ => .raises, true, fun _ _ => .raises⟩
        ("hello".data) 5 = [] :=
  C7_search_fallback_chain.2.1
    ⟨true, fun _ _ => .raises, fun _ _ => .raises, true, fun _ _ => .raises⟩
    ("hello".data) 5 (fun _ _ => rfl) (fun _ _ => rfl) (fun _ _ => rfl)

/-! ## Response cleanup -/

/-- C4: the response cleanup strips every `<think>...</think>` block and any
unterminated trailing `<think>` opener (and stray tag remnants), keeps only the
text after the applicable final-answer marker, and unwraps `\boxed` groups to
their bare contents.  In particular the raw model output
`"<think>scratch</think>FINAL ANSWER: \boxed{42}"` cleans to exactly `"42"`;
the remaining conjuncts exercise each documented ingredient separately:
an unterminated opener, several closed blocks, a stray closing tag, the
`"Answer:"` marker, and a `\boxed` group preceded by whitespace. -/
theorem C4_response_cleanup :
    cleanupResponse ("<think>scratch</think>FINAL ANSWER: \\boxed\x7b42\x7d".data)
      = "42".data ∧
    cleanupResponse ("answer<think>partial reasoning".data) = "answer".data ∧
    cleanupResponse ("<think>a</think>x<think>b</think>y".data) = "xy".data ∧
    cleanupResponse ("a</think>b".data) = "ab".data ∧
    cleanupResponse ("ignored Answer: kept".data) = "kept".data ∧
    cleanupResponse ("Final Answer: \\boxed \x7b7\x7d".data) = "7".data := by
  refine ⟨by decide, by decide, by decide, by decide, by decide, by decide⟩

end MeriBot
